import Mathlib

/-!
Verification development for the `systems-craft` metric-ingestion service.

Each C++ component relevant to the frozen claims is shallowly embedded as
executable Lean definitions:

* `PartitionedQueue` (src/src/partitioned_queue.cpp) — partitioned append-only
  log with per-partition `next_offset`, one `.msg` file per message and a
  durable `offset.txt`.
* `RateLimiter` (src/src/ingestion_service.cpp) — sliding-window admission
  plus the lock-free per-client telemetry ring buffer.
* `MetricValidator`, the optimized JSON parser and `handle_metrics_post`
  (src/src/ingestion_service.cpp).
* `QueueConsumer` (src/src/queue_consumer.cpp).
* `EventLoop::handle_read` request framing (src/src/event_loop.cpp).

Modelling conventions: machine integers (`uint64_t`, `size_t`) are modelled
as `Nat`; the counters involved (offsets, ring indices) only ever grow by 1
per operation from 0, so the 2^64 wrap-around is unreachable in any execution
the specification considers and is not modelled.  Steady-clock time points are
`Nat` nanoseconds.  `double` values are modelled by `DVal` below, keeping the
finite/NaN/infinity distinction that the validator inspects (including
`strtod`'s `inf`/`nan` literals and its overflow to infinity) while
representing finite values exactly as rationals.  File systems are modelled
per partition
as association lists from file name to content.  Sequential executions of the
code are modelled; each mutex-protected critical section is one atomic step.
-/

namespace SystemsCraft

/-! ## Decimal formatting (`PartitionedQueue::format_offset`)

`format_offset` renders the offset via `std::ostringstream` with
`setfill('0') << setw(20)`: the decimal digits of the offset, left-padded
with `'0'` to a minimum width of 20. -/

/-- Decimal digits of `n`, most significant first, prepended to `acc`.
`fuel` dominates the recursion depth; `n < fuel` suffices. -/
def decDigitsCore : Nat → Nat → List Char → List Char
  | 0, _, acc => acc
  | fuel + 1, n, acc =>
    if n < 10 then Nat.digitChar n :: acc
    else decDigitsCore fuel (n / 10) (Nat.digitChar (n % 10) :: acc)

/-- Decimal digit string of `n` (what `operator<<` prints for an integer). -/
def decDigits (n : Nat) : List Char :=
  decDigitsCore (n + 1) n []

/-- `PartitionedQueue::format_offset`: offset zero-padded to width 20. -/
def format_offset (o : Nat) : String :=
  let s := decDigits o
  String.mk (List.replicate (20 - s.length) '0' ++ s)

/-! ## PartitionedQueue (src/src/partitioned_queue.cpp)

State of one partition directory: the monotonic `next_offset` counter
(`offsets_[p]`), the `.msg` files present (newest first, name ↦ content) and
the contents of `offset.txt` (`none` = file absent, `some o` = ASCII decimal
of `o`).  `produce` is modelled per critical section; whether each of the two
`std::ofstream` opens succeeds is an oracle argument (`msgOk` for the
`.msg` file, `offOk` for `offset.txt`); `false` makes the corresponding
open fail, which in the C++ raises `std::runtime_error`. -/

structure Partition where
  next_offset : Nat
  files : List (String × String)
  offset_txt : Option Nat
  deriving Repr, DecidableEq

/-- A fresh partition directory (constructor with no pre-existing files). -/
def Partition.fresh : Partition := ⟨0, [], none⟩

/-- Body of `PartitionedQueue::produce` once the partition mutex is held,
together with `update_offset_file`.  Mirrors the statement order of the
source: the counter is pre-incremented *before* the `.msg` open, so a failed
open still consumes the offset; the `.msg` file is written *before*
`offset.txt` is overwritten, so a failed `offset.txt` open leaves the message
file present with a stale `offset.txt`. -/
def producePart (msgOk offOk : Bool) (message : String) (pt : Partition) :
    Except String Nat × Partition :=
  let offset := pt.next_offset + 1
  let pt := { pt with next_offset := offset }
  if msgOk = false then
    (.error "Failed to open file", pt)
  else
    let filename := format_offset offset ++ ".msg"
    let pt := { pt with files := (filename, message) :: pt.files }
    if offOk = false then
      (.error "Failed to open offset file", pt)
    else
      (.ok offset, { pt with offset_txt := some offset })

/-- Whole-queue state: `partitions.length` is `num_partitions_`. -/
structure PQState where
  partitions : List Partition
  deriving Repr, DecidableEq

/-- Queue as built by the constructor for `n` partitions (no prior files). -/
def PQState.fresh (n : Nat) : PQState := ⟨List.replicate n Partition.fresh⟩

/-- `PartitionedQueue::get_partition`: `std::hash` is implementation-defined,
so it is a parameter `hash` of the model. -/
def get_partition (hash : String → Nat) (numPartitions : Nat) (key : String) : Nat :=
  hash key % numPartitions

/-- `PartitionedQueue::produce`.  Returns `(partition, offset)` on success;
on failure the exception propagates but the state mutations already made
(the offset pre-increment, and the `.msg` write when only the `offset.txt`
open failed) remain. -/
def produce (hash : String → Nat) (msgOk offOk : Bool) (key message : String)
    (q : PQState) : Except String (Nat × Nat) × PQState :=
  let p := get_partition hash q.partitions.length key
  let pt := q.partitions.getD p Partition.fresh
  let (r, pt') := producePart msgOk offOk message pt
  (r.map (fun o => (p, o)), ⟨q.partitions.set p pt'⟩)

/-- File name of the message at offset `o`: padded offset plus `.msg`. -/
def msgName (o : Nat) : String := format_offset o ++ ".msg"

/-- `[n, n-1, ..., 1]`: the offsets of a contiguous partition, newest first
(the order in which `produce` prepends files in the model). -/
def revRange : Nat → List Nat
  | 0 => []
  | n + 1 => (n + 1) :: revRange n

/-- A produce call of a script: the two open oracles, key and message. -/
structure ProduceCall where
  msgOk : Bool
  offOk : Bool
  key : String
  message : String
  deriving Repr, DecidableEq

/-- Run a script of produce calls (exceptions propagate per call; the state
mutations already performed before a throw remain, as in the C++). -/
def runProduces (hash : String → Nat) : List ProduceCall → PQState → PQState
  | [], q => q
  | c :: rest, q => runProduces hash rest (produce hash c.msgOk c.offOk c.key c.message q).2

/-- Contiguity invariant of one partition directory: the `.msg` files are
exactly offsets `1..next_offset` (newest first) and `offset.txt` records
`next_offset` (absent only while nothing was produced). -/
def Partition.Contiguous (pt : Partition) : Prop :=
  pt.files.map Prod.fst = (revRange pt.next_offset).map msgName ∧
  pt.offset_txt = if pt.next_offset = 0 then none else some pt.next_offset

/-- Weaker invariant tolerating failed `.msg` opens: `offset.txt` dominates
the offset of every `.msg` file present and is at most `next_offset`. -/
def Partition.OffsetDominates (pt : Partition) : Prop :=
  (∀ e ∈ pt.files, ∃ o, o ≤ pt.offset_txt.getD 0 ∧ e.1 = msgName o) ∧
  pt.offset_txt.getD 0 ≤ pt.next_offset

/-! ## RateLimiter (src/src/ingestion_service.cpp, `RateLimiter::allow_request`)

Steady-clock time points are `Nat` nanoseconds.  The deque of one client
(`client_requests_[client_id]`) is a `List Nat`, front first.  The C++
condition `duration_cast<seconds>(now - oldest).count() >= 1` becomes
`1 ≤ (now - ts) / nsPerSec` (`duration_cast` truncates; a negative signed
difference and truncated `Nat` subtraction both fail the test). -/

/-- One second of steady-clock time in nanoseconds. -/
def nsPerSec : Nat := 1000000000

/-- Cleanup loop of `allow_request`: pop timestamps from the front while the
front is at least one second old, stopping at the first younger entry. -/
def dropOld (now : Nat) : List Nat → List Nat
  | [] => []
  | ts :: rest => if 1 ≤ (now - ts) / nsPerSec then dropOld now rest else ts :: rest

/-- Decision section of `RateLimiter::allow_request` for one client under its
mutex: cleanup, then admit (appending `now`) iff the remaining deque is
shorter than `max_requests_`. -/
def allowRequest (maxRequests now : Nat) (q : List Nat) : Bool × List Nat :=
  let q := dropOld now q
  if q.length < maxRequests then (true, q ++ [now]) else (false, q)

/-- Sequential calls of `allow_request` for one client at the given trace of
steady-clock times; returns the `(now, decision)` list in call order and the
final deque. -/
def runLimiter (maxRequests : Nat) (q : List Nat) : List Nat → List (Nat × Bool) × List Nat
  | [] => ([], q)
  | now :: rest =>
    let r := allowRequest maxRequests now q
    let rs := runLimiter maxRequests r.2 rest
    ((now, r.1) :: rs.1, rs.2)

/-- Times of the admitted calls of a decision list. -/
def admittedTimes (ds : List (Nat × Bool)) : List Nat :=
  (ds.filter fun d => d.2).map Prod.fst

/-- Number of times falling in the 1-second window `(t, t + nsPerSec]`. -/
def countWindow (t : Nat) (adm : List Nat) : Nat :=
  adm.countP fun u => decide (t < u ∧ u ≤ t + nsPerSec)

/-! ## Telemetry ring buffer (struct ClientMetrics + its uses)

`allow_request` lines 94–101 are the producer; the per-client body of
`flush_metrics` (lines 133–149) is the reader. -/

/-- `struct MetricEvent`. -/
structure MetricEvent where
  timestamp : Nat
  allowed : Bool
  deriving Repr, DecidableEq

/-- `ClientMetrics::BUFFER_SIZE`. -/
def BUFFER_SIZE : Nat := 1000

/-- `struct ClientMetrics`: fixed array of 1000 events plus the two atomic
indices, both zero-initialised. -/
structure ClientMetrics where
  ring_buffer : List MetricEvent
  write_index : Nat
  read_index : Nat
  deriving Repr, DecidableEq

/-- A freshly constructed `ClientMetrics` (default `MetricEvent`s, indices 0). -/
def ClientMetrics.init : ClientMetrics :=
  ⟨List.replicate BUFFER_SIZE ⟨0, false⟩, 0, 0⟩

/-- Producer step: read `write_index`, write the event at
`write_index % BUFFER_SIZE`, publish `write_index + 1`. -/
def producerStep (ev : MetricEvent) (m : ClientMetrics) : ClientMetrics :=
  let w := m.write_index
  { m with
    ring_buffer := m.ring_buffer.set (w % BUFFER_SIZE) ev,
    write_index := w + 1 }

/-- Reader step (`flush_metrics`, one client): load both indices, read the
entries of `[read_index, write_index)`, then store `write_index` into
`read_index` when at least one event was processed. -/
def readerStep (m : ClientMetrics) : ClientMetrics × List MetricEvent :=
  let r := m.read_index
  let w := m.write_index
  let events := (List.range' r (w - r)).map
    fun i => m.ring_buffer.getD (i % BUFFER_SIZE) ⟨0, false⟩
  if 0 < events.length then ({ m with read_index := w }, events) else (m, events)

/-! ## Metric data model

`metric.h` is not among the sources; the shapes below are reconstructed from
their uses in `ingestion_service.cpp` and §3 of the spec. -/

/-- `enum class MetricType`. -/
inductive MetricType
  | COUNTER
  | GAUGE
  | HISTOGRAM
  | SUMMARY
  deriving Repr, DecidableEq

/-- Model of a C++ `double` as far as the service observes it:
`validate_metric` only asks `isnan`/`isinf`, so the model keeps the
non-finite classes symbolically and finite values as exact rationals
(rounding to the nearest `double` is not modelled — it preserves
finiteness, and no claim observes a finite magnitude; overflow to infinity
is modelled, see `dblOverflowNum`). -/
inductive DVal
  | finite (q : Rat)
  | nan
  | inf
  | ninf
  deriving Repr, DecidableEq

/-- `std::isnan`. -/
def DVal.isnan : DVal → Bool
  | .nan => true
  | _ => false

/-- `std::isinf`. -/
def DVal.isinf : DVal → Bool
  | .inf => true
  | .ninf => true
  | _ => false

/-- `Tags`: `std::map`/`unordered_map` from short string to short string,
modelled as an association list. -/
abbrev Tags := List (String × String)

/-- Modelled from the spec: `struct Metric` of the missing `metric.h`
(§3 of the spec; field set as used by the parser and validator). -/
structure Metric where
  name : String
  value : DVal
  type : MetricType
  tags : Tags
  deriving Repr, DecidableEq

/-- Modelled from the spec: `MetricBatch` of the missing `metric.h` — an
ordered sequence of `Metric` with `add_metric`, `size` and `empty`. -/
structure MetricBatch where
  metrics : List Metric
  deriving Repr, DecidableEq

def MetricBatch.add_metric (b : MetricBatch) (m : Metric) : MetricBatch :=
  ⟨b.metrics ++ [m]⟩

def MetricBatch.size (b : MetricBatch) : Nat := b.metrics.length

def MetricBatch.isEmpty (b : MetricBatch) : Bool := b.metrics.isEmpty

/-! ## MetricValidator (src/src/ingestion_service.cpp lines 166–217) -/

/-- `MetricValidator::ValidationResult`. -/
structure ValidationResult where
  valid : Bool
  error_message : String
  deriving Repr, DecidableEq

/-- `MetricValidator::validate_metric`: name non-empty, name at most 255
bytes (`std::string::length` counts bytes), value neither NaN nor infinite. -/
def validate_metric (m : Metric) : ValidationResult :=
  if m.name.isEmpty then ⟨false, "Metric name cannot be empty"⟩
  else if 255 < m.name.utf8ByteSize then ⟨false, "Metric name too long (max 255 characters)"⟩
  else if m.value.isnan || m.value.isinf then ⟨false, "Metric value must be a finite number"⟩
  else ⟨true, ""⟩

/-- The per-metric loop of `validate_batch`: first invalid metric wins, its
message prefixed with `Invalid metric: `. -/
def validateMetricsLoop : List Metric → ValidationResult
  | [] => ⟨true, ""⟩
  | m :: rest =>
    let r := validate_metric m
    if r.valid = false then ⟨false, "Invalid metric: " ++ r.error_message⟩
    else validateMetricsLoop rest

/-- `MetricValidator::validate_batch`. -/
def validate_batch (b : MetricBatch) : ValidationResult :=
  if b.isEmpty then ⟨false, "Batch cannot be empty"⟩
  else if 1000 < b.size then ⟨false, "Batch size exceeds maximum (1000 metrics)"⟩
  else validateMetricsLoop b.metrics

/-! ## Optimized JSON parser
(src/src/ingestion_service.cpp, `parse_json_metrics_optimized`)

The C++ is a single `while` loop over an index `i` with a state enum and
whole-loop locals for the metric under construction.  It is embedded as a
step function on the remaining character list plus the same locals; the
loop is fuel recursion (every non-terminating iteration of the C++ advances
`i`, so `|body| + 1` iterations always suffice).  The `DONE` state is
modelled by returning, as the loop condition exits on it. -/

/-- `std::isspace` on ASCII. -/
def isSpaceChar (c : Char) : Bool :=
  c = ' ' || c = '\t' || c = '\n' || c = '\x0b' || c = '\x0c' || c = '\r'

/-- The `skip_whitespace` lambda. -/
def skipWs : List Char → List Char
  | [] => []
  | c :: cs => if isSpaceChar c then skipWs cs else c :: cs

/-- Escape translation of the `parse_string` lambda: `\n`, `\t`, `\r`;
any other escaped character is copied verbatim. -/
def escChar (c : Char) : Char :=
  if c = 'n' then '\n' else if c = 't' then '\t' else if c = 'r' then '\r' else c

/-- Scan of `parse_string` after the opening quote: stop at the closing
quote; a backslash followed by a character consumes both; a trailing
backslash or a missing closing quote fails with everything consumed. -/
def parseStringBody (acc : String) : List Char → Option String × List Char
  | [] => (none, [])
  | '"' :: rest => (some acc, rest)
  | '\\' :: [] => (none, [])
  | '\\' :: d :: rest => parseStringBody (acc.push (escChar d)) rest
  | c :: rest => parseStringBody (acc.push c) rest

/-- The `parse_string` lambda: fails without consuming unless positioned on
a quote. -/
def parse_string : List Char → Option String × List Char
  | [] => (none, [])
  | c :: cs => if c = '"' then parseStringBody "" cs else (none, c :: cs)

/-- Digit/dot scan of the `parse_number` lambda (after the optional sign). -/
def scanDigitsDots : List Char → List Char × List Char
  | [] => ([], [])
  | c :: cs =>
    if c.isDigit || c = '.' then
      let r := scanDigitsDots cs
      (c :: r.1, r.2)
    else ([], c :: cs)

/-- The scanner of `parse_number`: optional minus sign, then digits and
dots. -/
def scanNumber : List Char → List Char × List Char
  | '-' :: rest =>
    let r := scanDigitsDots rest
    ('-' :: r.1, r.2)
  | cs => scanDigitsDots cs

/-- A maximal run of decimal digits. -/
def takeDigits : List Char → List Char × List Char
  | [] => ([], [])
  | c :: cs =>
    if c.isDigit then
      let r := takeDigits cs
      (c :: r.1, r.2)
    else ([], c :: cs)

/-- Numeric value of a digit run. -/
def digitsVal (ds : List Char) : Nat :=
  ds.foldl (fun a c => 10 * a + (c.toNat - 48)) 0

/-- Case-insensitive prefix test for `strtod`'s `inf`/`nan` literal forms
(accepted in any case). -/
def startsWithCI : List Char → List Char → Bool
  | [], _ => true
  | _ :: _, [] => false
  | p :: ps, c :: cs => (c.toLower = p) && startsWithCI ps cs

/-- `strtod`'s overflow threshold: with round-to-nearest-even, an exact
decimal magnitude at or above the midpoint `2^1024 - 2^970` between
`DBL_MAX` and `2^1024` rounds to `HUGE_VAL` (+infinity) with `ERANGE`. -/
def dblOverflowNum : Nat := 2 ^ 1024 - 2 ^ 970

/-- Negation of a `double`, as `strtod` applies a leading `-`. -/
def DVal.neg : DVal → DVal
  | .finite q => .finite (-q)
  | .inf => .ninf
  | .ninf => .inf
  | .nan => .nan

/-- Unsigned part of the `strtod` model: the `inf`/`nan` literal forms,
else integer digits, optional fraction and optional exponent (consumed only
when at least one exponent digit follows); no conversion at all yields 0,
as `strtod` returns 0.0 then.  The exact value is carried as the integer
fraction `num / den` (`den` a power of ten); a magnitude reaching the
overflow threshold — checked by cross-multiplication,
`dblOverflowNum * den ≤ num` — overflows to infinity exactly as `strtod`'s
`ERANGE` does (so e.g. `1e999` parses to +infinity); below the threshold
the exact rational is kept — rounding to the nearest `double` and
hexadecimal float forms are not modelled, as both yield finite values and
no claim observes a finite magnitude. -/
def strtodMag (cs : List Char) : DVal :=
  if startsWithCI ['i', 'n', 'f'] cs then .inf
  else if startsWithCI ['n', 'a', 'n'] cs then .nan
  else
    let ip := takeDigits cs
    let fp : List Char × List Char :=
      match ip.2 with
      | '.' :: rest => takeDigits rest
      | r1 => ([], r1)
    if ip.1.isEmpty && fp.1.isEmpty then .finite 0
    else
      let mnum : Nat := digitsVal ip.1 * 10 ^ fp.1.length + digitsVal fp.1
      let mden : Nat := 10 ^ fp.1.length
      let frac : Nat × Nat :=
        match fp.2 with
        | 'e' :: '+' :: rest2 =>
          let es := (takeDigits rest2).1
          if es.isEmpty then (mnum, mden) else (mnum * 10 ^ digitsVal es, mden)
        | 'e' :: '-' :: rest2 =>
          let es := (takeDigits rest2).1
          if es.isEmpty then (mnum, mden) else (mnum, mden * 10 ^ digitsVal es)
        | 'e' :: rest2 =>
          let es := (takeDigits rest2).1
          if es.isEmpty then (mnum, mden) else (mnum * 10 ^ digitsVal es, mden)
        | 'E' :: '+' :: rest2 =>
          let es := (takeDigits rest2).1
          if es.isEmpty then (mnum, mden) else (mnum * 10 ^ digitsVal es, mden)
        | 'E' :: '-' :: rest2 =>
          let es := (takeDigits rest2).1
          if es.isEmpty then (mnum, mden) else (mnum, mden * 10 ^ digitsVal es)
        | 'E' :: rest2 =>
          let es := (takeDigits rest2).1
          if es.isEmpty then (mnum, mden) else (mnum * 10 ^ digitsVal es, mden)
        | _ => (mnum, mden)
      if dblOverflowNum * frac.2 ≤ frac.1 then .inf
      else .finite (mkRat (Int.ofNat frac.1) frac.2)

/-- Model of `strtod` on the buffer suffix at the scan start.  At the only
call site the suffix begins with `-`, a digit or a dot (the scanner
consumed at least one such character), so the `inf`/`nan` literal branches
are reachable exactly after a consumed `-` sign, as in the C library
(`strtod("-inf…")` is −infinity, `strtod("-nan…")` is NaN). -/
def strtodModel : List Char → DVal
  | '-' :: rest => (strtodMag rest).neg
  | '+' :: rest => strtodMag rest
  | cs => strtodMag cs

/-- The `parse_number` lambda: when the scanner consumes nothing (as for the
non-JSON literals `NaN`/`inf` in value position) the result is 0.0 and the
position does not move; otherwise `strtod` converts from the scan start of
the original buffer (it may read further than the scanner: an exponent, an
overflowing `1e999`, or `inf`/`nan` after a consumed `-`), and parsing
resumes after the scanned prefix. -/
def parse_number (cs : List Char) : DVal × List Char :=
  let r := scanNumber cs
  if r.1.isEmpty then (.finite 0, cs)
  else (strtodModel cs, r.2)

/-- `enum class ParseState` (without `DONE`, modelled by returning; the three
`PARSING_*` states are never entered and fall to the `default` arm). -/
inductive ParseState
  | LOOKING_FOR_METRICS
  | IN_METRICS_ARRAY
  | IN_METRIC_OBJECT
  | PARSING_FIELD_NAME
  | PARSING_STRING_VALUE
  | PARSING_NUMBER_VALUE
  | IN_TAGS_OBJECT
  deriving Repr, DecidableEq

/-- The whole-loop locals of the parser: the metric under construction and
the batch built so far. -/
structure ParserAcc where
  metric_name : String
  metric_type : String
  metric_value : DVal
  metric_tags : Tags
  batch : MetricBatch
  deriving Repr, DecidableEq

/-- `metric_tags[key] = value` on the association list. -/
def tagsInsert (t : Tags) (k v : String) : Tags :=
  if t.any (fun kv => kv.1 = k) then
    t.map fun kv => if kv.1 = k then (k, v) else kv
  else t ++ [(k, v)]

/-- String-to-enum translation at the metric close brace. -/
def typeOfString (s : String) : MetricType :=
  if s = "counter" then .COUNTER
  else if s = "histogram" then .HISTOGRAM
  else if s = "summary" then .SUMMARY
  else .GAUGE

/-- Outcome of one iteration of the parser loop. -/
inductive StepResult
  | finished (batch : MetricBatch)
  | next (st : ParseState) (cs : List Char) (acc : ParserAcc)
  deriving Repr

/-- One iteration of the parser's `while` loop: skip whitespace, stop at the
end of input, then the `switch` on the state.  `finished` covers both loop
exits (end of input and the transition to `DONE` on `]`). -/
def parseStep (st : ParseState) (cs : List Char) (acc : ParserAcc) : StepResult :=
  match skipWs cs with
  | [] => .finished acc.batch
  | c :: cs' =>
    match st with
    | .LOOKING_FOR_METRICS =>
      if c = '"' then
        match parse_string (c :: cs') with
        | (some field, rest) =>
          if field = "metrics" then
            match skipWs rest with
            | ':' :: rest2 =>
              match skipWs rest2 with
              | '[' :: rest3 => .next .IN_METRICS_ARRAY rest3 acc
              | rest3 => .next .LOOKING_FOR_METRICS rest3 acc
            | rest2 => .next .LOOKING_FOR_METRICS rest2 acc
          else .next .LOOKING_FOR_METRICS rest acc
        | (none, rest) => .next .LOOKING_FOR_METRICS rest acc
      else .next .LOOKING_FOR_METRICS cs' acc
    | .IN_METRICS_ARRAY =>
      if c = '\x7b' then
        .next .IN_METRIC_OBJECT cs'
          { acc with metric_name := "", metric_type := "gauge",
                     metric_value := .finite 0, metric_tags := [] }
      else if c = ']' then .finished acc.batch
      else .next .IN_METRICS_ARRAY cs' acc
    | .IN_METRIC_OBJECT =>
      if c = '"' then
        match parse_string (c :: cs') with
        | (some field, rest) =>
          match skipWs rest with
          | ':' :: rest2 =>
            if field = "name" || field = "type" then
              match parse_string (skipWs rest2) with
              | (some v, rest3) =>
                if field = "name" then
                  .next .IN_METRIC_OBJECT rest3 { acc with metric_name := v }
                else
                  .next .IN_METRIC_OBJECT rest3 { acc with metric_type := v }
              | (none, rest3) => .next .IN_METRIC_OBJECT rest3 acc
            else if field = "value" then
              let r := parse_number (skipWs rest2)
              .next .IN_METRIC_OBJECT r.2 { acc with metric_value := r.1 }
            else if field = "tags" then
              match skipWs rest2 with
              | '\x7b' :: rest3 => .next .IN_TAGS_OBJECT rest3 acc
              | rest3 => .next .IN_METRIC_OBJECT rest3 acc
            else .next .IN_METRIC_OBJECT (skipWs rest2) acc
          | rest' => .next .IN_METRIC_OBJECT rest' acc
        | (none, rest) => .next .IN_METRIC_OBJECT rest acc
      else if c = '\x7d' then
        if acc.metric_name.isEmpty then .next .IN_METRICS_ARRAY cs' acc
        else
          let m := Metric.mk acc.metric_name acc.metric_value
            (typeOfString acc.metric_type) acc.metric_tags
          .next .IN_METRICS_ARRAY cs' { acc with batch := acc.batch.add_metric m }
      else .next .IN_METRIC_OBJECT cs' acc
    | .IN_TAGS_OBJECT =>
      if c = '"' then
        match parse_string (c :: cs') with
        | (some field, rest) =>
          match skipWs rest with
          | ':' :: rest2 =>
            match parse_string (skipWs rest2) with
            | (some v, rest3) =>
              .next .IN_TAGS_OBJECT rest3
                { acc with metric_tags := tagsInsert acc.metric_tags field v }
            | (none, rest3) => .next .IN_TAGS_OBJECT rest3 acc
          | rest' => .next .IN_TAGS_OBJECT rest' acc
        | (none, rest) => .next .IN_TAGS_OBJECT rest acc
      else if c = '\x7d' then .next .IN_METRIC_OBJECT cs' acc
      else .next .IN_TAGS_OBJECT cs' acc
    | _ => .next st cs' acc

/-- The parser's `while` loop as fuel recursion over `parseStep`. -/
def parseLoop : Nat → ParseState → List Char → ParserAcc → MetricBatch
  | 0, _, _, acc => acc.batch
  | fuel + 1, st, cs, acc =>
    match parseStep st cs acc with
    | .finished b => b
    | .next st' cs' acc' => parseLoop fuel st' cs' acc'

/-- `IngestionService::parse_json_metrics_optimized`. -/
def parse_json_metrics_optimized (json_body : String) : MetricBatch :=
  parseLoop (json_body.length + 1) .LOOKING_FOR_METRICS json_body.data
    ⟨"", "gauge", .finite 0, [], ⟨[]⟩⟩

/-! ## IngestionService orchestration (handle_metrics_post and helpers) -/

/-- Modelled from the spec: `HttpRequest` of the missing `http_server.h` —
header map plus raw body, as used by `handle_metrics_post`. -/
structure HttpRequest where
  headers : List (String × String)
  body : String
  deriving Repr, DecidableEq

/-- Modelled from the spec: `HttpResponse` of the missing `http_server.h`.
The handlers assign `status_code` only on error paths while §4.7 specifies
200 for the success responses, so the default status is 200.
`set_json_content` sets the JSON content type. -/
structure HttpResponse where
  status_code : Nat := 200
  content_type : String := ""
  body : String := ""
  deriving Repr, DecidableEq

def HttpResponse.set_json_content (r : HttpResponse) : HttpResponse :=
  { r with content_type := "application/json" }

/-- `std::to_string` for the counters. -/
def natToString (n : Nat) : String := String.mk (decDigits n)

/-- `IngestionService::create_error_response`. -/
def create_error_response (message : String) : String :=
  "\x7b\"error\":\"" ++ message ++ "\"\x7d"

/-- `IngestionService::create_success_response`. -/
def create_success_response (metrics_count : Nat) : String :=
  "\x7b\"success\":true,\"metrics_processed\":" ++ natToString metrics_count ++ "\x7d"

/-- Counters, rate-limiter deques and the writer's handoff queue of
`IngestionService`.  (The telemetry rings of `client_metrics_` are modelled
separately as `ClientMetrics`; `allow_request` touches no field below other
than `client_requests`.) -/
structure ServiceState where
  metrics_received : Nat
  batches_processed : Nat
  validation_errors : Nat
  rate_limited : Nat
  client_requests : List (String × List Nat)
  write_queue : List (MetricBatch × String)
  deriving Repr, DecidableEq

/-- Freshly constructed service: all counters zero, no clients, empty
handoff queue. -/
def ServiceState.init : ServiceState := ⟨0, 0, 0, 0, [], []⟩

/-- `client_requests_[client_id]`: `unordered_map::operator[]` semantics —
the deque of the client, empty when absent. -/
def lookupQueue (m : List (String × List Nat)) (k : String) : List Nat :=
  (m.lookup k).getD []

/-- Store the client's deque back (insert or assign). -/
def updateQueue : List (String × List Nat) → String → List Nat → List (String × List Nat)
  | [], k, v => [(k, v)]
  | (k', v') :: rest, k, v =>
    if k' = k then (k, v) :: rest else (k', v') :: updateQueue rest k v

/-- `IngestionService::handle_metrics_post`, parameterised by the
steady-clock time `now` of the embedded `allow_request` call.  The
`try`/`catch` of the source cannot fire — `parse_json_metrics_optimized`
contains no throwing operation — so the catch arm is dead code and not
modelled. -/
def handle_metrics_post (maxRequests now : Nat) (st : ServiceState)
    (request : HttpRequest) : HttpResponse × ServiceState :=
  let response := HttpResponse.set_json_content {}
  let client_id := (request.headers.lookup "Authorization").getD "default"
  let r := allowRequest maxRequests now (lookupQueue st.client_requests client_id)
  let st := { st with client_requests := updateQueue st.client_requests client_id r.2 }
  if r.1 = false then
    ({ response with status_code := 429,
                     body := create_error_response "Rate limit exceeded" },
     { st with rate_limited := st.rate_limited + 1 })
  else
    let batch := parse_json_metrics_optimized request.body
    let vr := validate_batch batch
    if vr.valid = false then
      ({ response with status_code := 400,
                       body := create_error_response vr.error_message },
       { st with validation_errors := st.validation_errors + 1 })
    else
      ({ response with body := create_success_response batch.size },
       { st with
          metrics_received := st.metrics_received + batch.size,
          batches_processed := st.batches_processed + 1,
          write_queue := st.write_queue ++ [(batch, client_id)] })

/-! ## QueueConsumer (src/src/queue_consumer.cpp)

One partition of one consumer group.  The partition directory is modelled as
a map from offset to message content (`dir : Nat → Option String`): the C++
`read_next` builds the file name `format_offset(next) + ".msg"` and opens
it, and under the producer's naming scheme (claim C1) that open is exactly a
lookup by offset; C7 is about delivery order and commits, not names, so the
directory is keyed by offset. -/

/-- `QueueConsumer::load_offsets` for one partition: an absent offset file
leaves the initial 0. -/
def loadCommitted (stored : Option Nat) : Nat := stored.getD 0

/-- `QueueConsumer::read_next`: try offset `read_offsets_[p] + 1`; an absent
file means the consumer caught up. -/
def read_next (dir : Nat → Option String) (r : Nat) : Option (Nat × String) :=
  match dir (r + 1) with
  | none => none
  | some content => some (r + 1, content)

/-- Observable trace of one consumer partition thread: the messages
delivered to the handler and the offsets committed after each delivery, in
order, plus the final `read_offsets_[p]`. -/
structure ConsumerRun where
  deliveries : List (Nat × String)
  commits : List Nat
  read_offset : Nat
  deriving Repr, DecidableEq

/-- `QueueConsumer::consume_partition` until `read_next` first returns
`none` (the C++ then sleeps 100 ms and retries; over a quiescent directory
it keeps returning `none`, so this is the entire observable behaviour of a
run).  Each iteration mirrors the statement order of the source: read the
file, deliver, advance `read_offsets_[p]` to the delivered offset, then
commit that offset. -/
def consume_partition : Nat → (Nat → Option String) → Nat → ConsumerRun
  | 0, _, r => ⟨[], [], r⟩
  | fuel + 1, dir, r =>
    match read_next dir r with
    | none => ⟨[], [], r⟩
    | some (off, content) =>
      let rest := consume_partition fuel dir off
      ⟨(off, content) :: rest.deliveries, off :: rest.commits, rest.read_offset⟩

/-- A partition directory holding exactly the messages `1..M` (message `o`
with content `m o`), as an all-successful producer run creates it. -/
def contiguousDir (M : Nat) (m : Nat → String) : Nat → Option String :=
  fun o => if 1 ≤ o ∧ o ≤ M then some (m o) else none

/-! ## EventLoop::handle_read framing (src/src/event_loop.cpp lines 185–241)

The framing logic applied to a connection's read buffer after the socket has
been drained.  `std::string::npos` outcomes are modelled with `Option`. -/

/-- `std::string::find(pat, i)`: smallest index `≥ i` where `pat` occurs
(the accumulator `i` is the absolute index of the list head). -/
def findSubstrAux (pat : List Char) : List Char → Nat → Option Nat
  | [], i => if pat.isEmpty then some i else none
  | c :: cs, i =>
    if List.isPrefixOf pat (c :: cs) then some i
    else findSubstrAux pat cs (i + 1)

/-- `std::string::find(pat)`. -/
def findSubstr (s pat : List Char) : Option Nat := findSubstrAux pat s 0

/-- Maximal digit run with its value, `none` when empty (this is the
`invalid_argument` of `stoull`). -/
def digitsOpt (cs : List Char) : Option Nat :=
  let d := takeDigits cs
  if d.1.isEmpty then none else some (digitsVal d.1)

/-- Model of `std::stoull`: skip whitespace, optional sign, at least one
digit (else `invalid_argument`), magnitude above `2^64 - 1` raises
`out_of_range`; a `-` sign wraps modulo `2^64` as `strtoull` does.
`none` models a throw. -/
def stoullModel (s : List Char) : Option Nat :=
  match skipWs s with
  | '-' :: rest =>
    match digitsOpt rest with
    | none => none
    | some v => if 2 ^ 64 ≤ v then none else some ((2 ^ 64 - v) % 2 ^ 64)
  | '+' :: rest =>
    match digitsOpt rest with
    | none => none
    | some v => if 2 ^ 64 ≤ v then none else some v
  | rest =>
    match digitsOpt rest with
    | none => none
    | some v => if 2 ^ 64 ≤ v then none else some v

/-- The `while (value_start < header_end && buf[value_start] == ' ')` skip,
with the remaining distance to `header_end` as structural fuel. -/
def skipSpacesCore (buf : List Char) : Nat → Nat → Nat
  | i, 0 => i
  | i, fuel + 1 => if buf.getD i '\x00' = ' ' then skipSpacesCore buf (i + 1) fuel else i

def skipSpacesUpTo (buf : List Char) (i stop : Nat) : Nat :=
  skipSpacesCore buf i (stop - i)

/-- Content-Length extraction of `handle_read` given `header_end`: when
`"Content-Length:"` occurs before the header terminator, skip spaces, take
the text up to the next CRLF and parse it with `stoull` (`none` models the
catch-all that closes the connection); in every other case the length is 0
(in particular when the CRLF search fails, where the initialised 0 simply
survives — unreachable, as the terminator itself provides a CRLF). -/
def contentLengthOf (buf : List Char) (header_end : Nat) : Option Nat :=
  match findSubstr buf ("Content-Length:".data) with
  | some cl_pos =>
    if cl_pos < header_end then
      let value_start := skipSpacesUpTo buf (cl_pos + 15) header_end
      match findSubstrAux ("\r\n".data) (buf.drop value_start) value_start with
      | some value_end =>
        match stoullModel ((buf.drop value_start).take (value_end - value_start)) with
        | some n => some n
        | none => none
      | none => some 0
    else some 0
  | none => some 0

/-- Outcome of the framing tail of `handle_read` on one buffer. -/
inductive ReadOutcome
  | needMore
  | closeConn
  | framed (request : List Char) (keepAlive : Bool) (rest : List Char)
  deriving Repr, DecidableEq

/-- Framing tail of `EventLoop::handle_read`: a complete request needs the
`\r\n\r\n` terminator and `header_end + 4 + content_length` buffered bytes;
`request_data` is that prefix, the flag is set iff
`"Connection: keep-alive"` occurs anywhere in the read buffer
(`read_buffer.find`, before the erase), and exactly the framed bytes are
erased, the remainder staying buffered for pipelined requests. -/
def frameRequest (buf : List Char) : ReadOutcome :=
  match findSubstr buf ("\r\n\r\n".data) with
  | none => .needMore
  | some header_end =>
    match contentLengthOf buf header_end with
    | none => .closeConn
    | some content_length =>
      let body_start := header_end + 4
      let expected_size := body_start + content_length
      if buf.length < expected_size then .needMore
      else
        .framed (buf.take expected_size)
          ((findSubstr buf ("Connection: keep-alive".data)).isSome)
          (buf.drop expected_size)

/-! ## Supporting lemmas for the partitioned log -/

theorem decDigitsCore_length_le {k : Nat} :
    ∀ (fuel n : Nat) (acc : List Char), n < fuel → n < 10 ^ k → 1 ≤ k →
      (decDigitsCore fuel n acc).length ≤ k + acc.length := by
  induction k with
  | zero => intro _ _ _ _ _ h; omega
  | succ k ih =>
    intro fuel n acc hfuel hn hk
    match fuel with
    | 0 => omega
    | fuel + 1 =>
      unfold decDigitsCore
      by_cases hlt : n < 10
      · simp [hlt]; omega
      · simp only [hlt, if_false]
        have hk1 : 1 ≤ k := by
          by_contra h0
          have : k = 0 := by omega
          subst this
          simp at hn; omega
        have hdiv : n / 10 < 10 ^ k := by
          apply Nat.div_lt_of_lt_mul
          calc n < 10 ^ (k + 1) := hn
            _ = 10 * 10 ^ k := by ring
        have hfuel' : n / 10 < fuel := by
          have h1 : n / 10 < n := Nat.div_lt_self (by omega) (by norm_num)
          omega
        have := ih fuel (n / 10) (Nat.digitChar (n % 10) :: acc) hfuel' hdiv hk1
        simp at this ⊢
        omega

theorem decDigits_length_le {n k : Nat} (hn : n < 10 ^ k) (hk : 1 ≤ k) :
    (decDigits n).length ≤ k :=
  by simpa using decDigitsCore_length_le (n + 1) n [] (Nat.lt_succ_self n) hn hk

/-- Within the `uint64_t` range the padded name has exactly 20 characters. -/
theorem format_offset_length {o : Nat} (ho : o < 10 ^ 20) :
    (format_offset o).length = 20 := by
  have h := decDigits_length_le ho (by norm_num)
  simp [format_offset, String.length]
  omega

theorem Partition.fresh_contiguous : Partition.fresh.Contiguous := by
  constructor <;> rfl

theorem Partition.fresh_offsetDominates : Partition.fresh.OffsetDominates := by
  constructor
  · intro e he; cases he
  · exact Nat.le_refl 0

theorem producePart_contiguous {pt : Partition} (h : pt.Contiguous) (msg : String) :
    (producePart true true msg pt).2.Contiguous := by
  obtain ⟨hf, ht⟩ := h
  simp only [producePart]
  refine ⟨?_, ?_⟩
  · simp [revRange, msgName, hf]
  · simp

theorem producePart_offsetDominates {pt : Partition} (h : pt.OffsetDominates)
    (msgOk : Bool) (msg : String) :
    ((producePart msgOk true msg pt).2).OffsetDominates := by
  obtain ⟨hf, ht⟩ := h
  cases msgOk with
  | false =>
    simp only [producePart, if_pos rfl]
    exact ⟨hf, by simpa using Nat.le_succ_of_le ht⟩
  | true =>
    simp only [producePart]
    refine ⟨?_, by simp⟩
    intro e he
    simp at he
    rcases he with he | he
    · exact ⟨pt.next_offset + 1, Nat.le_refl _, by simp [he, msgName]⟩
    · obtain ⟨o, ho, hname⟩ := hf e he
      exact ⟨o, by simpa using Nat.le_succ_of_le (Nat.le_trans ho ht), hname⟩

theorem getD_pred {P : Partition → Prop} {l : List Partition}
    (hl : ∀ pt ∈ l, P pt) (hd : P Partition.fresh) (p : Nat) :
    P (l.getD p Partition.fresh) := by
  rcases h' : l[p]? with _ | x
  · simp [List.getD, h', hd]
  · have := List.getElem?_mem h'
    simp [List.getD, h', hl x this]

theorem produce_preserves {P : Partition → Prop}
    (hfresh : P Partition.fresh)
    {msgOk offOk : Bool} {msg : String}
    (hstep : ∀ pt, P pt → P (producePart msgOk offOk msg pt).2)
    {q : PQState} (hq : ∀ pt ∈ q.partitions, P pt)
    (hash : String → Nat) (key : String) :
    ∀ pt ∈ (produce hash msgOk offOk key msg q).2.partitions, P pt := by
  intro pt hpt
  simp only [produce] at hpt
  rcases List.mem_or_eq_of_mem_set hpt with h | h
  · exact hq pt h
  · subst h
    exact hstep _ (getD_pred hq hfresh _)

theorem runProduces_preserves {P : Partition → Prop} {ok : ProduceCall → Prop}
    (hfresh : P Partition.fresh)
    (hstep : ∀ pt c, ok c → P pt → P (producePart c.msgOk c.offOk c.message pt).2)
    (hash : String → Nat) :
    ∀ (calls : List ProduceCall) (q : PQState),
      (∀ c ∈ calls, ok c) → (∀ pt ∈ q.partitions, P pt) →
      ∀ pt ∈ (runProduces hash calls q).partitions, P pt := by
  intro calls
  induction calls with
  | nil => intro q _ hq; exact hq
  | cons c rest ih =>
    intro q hok hq
    have hc : ok c := hok c (List.mem_cons_self c rest)
    exact ih _ (fun c' hc' => hok c' (List.mem_cons_of_mem c hc'))
      (produce_preserves hfresh (fun pt hpt => hstep pt c hc hpt) hq hash c.key)

/-! ## Claim C1 -/

/-- **C1.** For every key and message, when the partition-`p` file opens
succeed, `PartitionedQueue::produce(key, message)` returns the pair `(p, o)`
where `p = hash(key) mod num_partitions` (this is `get_partition`, unfolded
in the `let`) and `o` is the previous `next_offset` of partition `p` plus one
(so the first message produced to a partition gets offset 1), writes the
message bytes to a file named with the offset zero-padded to exactly 20
decimal digits plus the suffix `.msg` inside partition `p`, and then
overwrites that partition's `offset.txt` with `o`.  The hypothesis
`o < 10 ^ 20` is the `uint64_t` range bound (`2 ^ 64 < 10 ^ 20`), under which
the padded name has exactly 20 digits. -/
theorem C1_produce_success (hash : String → Nat) (key message : String) (q : PQState)
    (ho : (q.partitions.getD (get_partition hash q.partitions.length key)
            Partition.fresh).next_offset + 1 < 10 ^ 20) :
    let p := get_partition hash q.partitions.length key
    let pt := q.partitions.getD p Partition.fresh
    let o := pt.next_offset + 1
    produce hash true true key message q =
      (.ok (p, o),
        ⟨q.partitions.set p
          { next_offset := o,
            files := (format_offset o ++ ".msg", message) :: pt.files,
            offset_txt := some o }⟩) ∧
    (format_offset o).length = 20 := by
  exact ⟨rfl, format_offset_length ho⟩

theorem C1_produce_success_witness :
    (let p := get_partition (fun _ => 0) (PQState.fresh 1).partitions.length "k"
     let pt := (PQState.fresh 1).partitions.getD p Partition.fresh
     let o := pt.next_offset + 1
     produce (fun _ => 0) true true "k" "m" (PQState.fresh 1) =
       (.ok (p, o),
         ⟨(PQState.fresh 1).partitions.set p
           { next_offset := o,
             files := (format_offset o ++ ".msg", "m") :: pt.files,
             offset_txt := some o }⟩) ∧
     (format_offset o).length = 20) :=
  C1_produce_success (fun _ => 0) "k" "m" (PQState.fresh 1) (by decide)

/-! ## Claim C2 -/

/-- **C2 (counterexample).** The claim asserts that even for produce calls
whose file open fails and throws, the set of offsets with a `.msg` file is
exactly `{1..M}` with no gaps.  Concretely false: on a fresh one-partition
queue, a first produce whose `.msg` open fails consumes offset 1 (the counter
is pre-incremented before the open), so a second, successful produce writes
offset 2 — the partition then holds a file for offset 2 but none for
offset 1. -/
theorem C2_counterexample :
    (let final := runProduces (fun _ => 0)
      [⟨false, true, "k", "m1"⟩, ⟨true, true, "k", "m2"⟩] (PQState.fresh 1)
     let names := (final.partitions.getD 0 Partition.fresh).files.map Prod.fst
     names = [format_offset 2 ++ ".msg"] ∧ (format_offset 1 ++ ".msg") ∉ names) := by
  decide

/-- **C2 (amended).** For every partition and every sequence of produce calls
in which every file open succeeds, the set of offsets with a `.msg` file is
exactly `{1..M}` (`M` = the partition's `next_offset`, files newest first, so
offsets are strictly increasing in produce order) and `offset.txt` equals the
newly written file's offset after each successful produce
(`Partition.Contiguous`).  When a `.msg` open fails its pre-incremented
offset is skipped, leaving a gap; in general, provided every `offset.txt`
open succeeds, the value in `offset.txt` dominates the offset of every
`.msg` file present and never exceeds `next_offset`
(`Partition.OffsetDominates`).  (A failed `offset.txt` open would leave the
just-written `.msg` file above the stale `offset.txt` value.) -/
theorem C2_produce_invariants (hash : String → Nat) (n : Nat) (calls : List ProduceCall) :
    ((∀ c ∈ calls, c.msgOk = true ∧ c.offOk = true) →
      ∀ p, ((runProduces hash calls (PQState.fresh n)).partitions.getD p
              Partition.fresh).Contiguous) ∧
    ((∀ c ∈ calls, c.offOk = true) →
      ∀ p, ((runProduces hash calls (PQState.fresh n)).partitions.getD p
              Partition.fresh).OffsetDominates) := by
  have hfreshmem : ∀ pt ∈ (PQState.fresh n).partitions, pt = Partition.fresh := by
    intro pt hpt
    exact List.eq_of_mem_replicate hpt
  constructor
  · intro hok p
    refine getD_pred ?_ Partition.fresh_contiguous p
    refine runProduces_preserves Partition.fresh_contiguous
      (fun pt c hc hpt => ?_) hash calls _ hok ?_
    · rw [hc.1, hc.2]
      exact producePart_contiguous hpt c.message
    · intro pt hpt
      rw [hfreshmem pt hpt]
      exact Partition.fresh_contiguous
  · intro hok p
    refine getD_pred ?_ Partition.fresh_offsetDominates p
    refine runProduces_preserves Partition.fresh_offsetDominates
      (fun pt c hc hpt => ?_) hash calls _ hok ?_
    · rw [hc]
      exact producePart_offsetDominates hpt c.msgOk c.message
    · intro pt hpt
      rw [hfreshmem pt hpt]
      exact Partition.fresh_offsetDominates

theorem C2_produce_invariants_witness :
    ((runProduces (fun _ => 0) [⟨true, true, "k", "m"⟩] (PQState.fresh 1)).partitions.getD 0
        Partition.fresh).Contiguous ∧
    ((runProduces (fun _ => 0) [⟨false, true, "k", "m"⟩] (PQState.fresh 1)).partitions.getD 0
        Partition.fresh).OffsetDominates :=
  ⟨(C2_produce_invariants (fun _ => 0) 1 [⟨true, true, "k", "m"⟩]).1 (by decide) 0,
   (C2_produce_invariants (fun _ => 0) 1 [⟨false, true, "k", "m"⟩]).2 (by decide) 0⟩

/-! ## Supporting lemmas for the rate limiter -/

theorem nsPerSec_pos : 0 < nsPerSec := by decide

theorem dropOld_cond (now ts : Nat) : 1 ≤ (now - ts) / nsPerSec ↔ nsPerSec ≤ now - ts :=
  Nat.one_le_div_iff nsPerSec_pos

/-- On a sorted deque the front-cleanup loop removes exactly the timestamps
at least one second old: the entries kept are those with `now - u < 1s`. -/
theorem dropOld_eq_filter (now : Nat) :
    ∀ {q : List Nat}, q.Pairwise (· ≤ ·) →
      dropOld now q = q.filter fun u => decide (now - u < nsPerSec) := by
  intro q
  induction q with
  | nil => intro _; rfl
  | cons ts rest ih =>
    intro h
    rw [List.pairwise_cons] at h
    unfold dropOld
    by_cases hd : 1 ≤ (now - ts) / nsPerSec
    · have hold : ¬ (now - ts < nsPerSec) := by
        rw [dropOld_cond] at hd; omega
      simp [hd, hold, ih h.2]
    · have hrec : now - ts < nsPerSec := by
        rw [dropOld_cond] at hd; omega
      have hall : ∀ u ∈ rest, decide (now - u < nsPerSec) = true := by
        intro u hu
        have hle := h.1 u hu
        simp only [decide_eq_true_eq]
        omega
      simp [hd, hrec, List.filter_eq_self.mpr hall]

theorem allowRequest_eq (maxRequests now : Nat) (q : List Nat) :
    allowRequest maxRequests now q =
      if (dropOld now q).length < maxRequests
      then (true, dropOld now q ++ [now]) else (false, dropOld now q) := rfl

theorem runLimiter_cons (maxRequests now : Nat) (q : List Nat) (rest : List Nat) :
    runLimiter maxRequests q (now :: rest) =
      ((now, (allowRequest maxRequests now q).1) ::
          (runLimiter maxRequests (allowRequest maxRequests now q).2 rest).1,
       (runLimiter maxRequests (allowRequest maxRequests now q).2 rest).2) := rfl

theorem admittedTimes_cons_true (now : Nat) (ds : List (Nat × Bool)) :
    admittedTimes ((now, true) :: ds) = now :: admittedTimes ds := by
  simp [admittedTimes]

theorem admittedTimes_cons_false (now : Nat) (ds : List (Nat × Bool)) :
    admittedTimes ((now, false) :: ds) = admittedTimes ds := by
  simp [admittedTimes]

/-- Main invariant of the sliding window, processed front to back: if the
already-admitted times `A` (all `≤ T`, sorted) satisfy the window bound and
the deque holds exactly the recent entries of `A`, then the bound still holds
after the remaining calls (at non-decreasing times `≥ T`). -/
theorem runLimiter_window_bound (maxRequests : Nat) :
    ∀ (ts A : List Nat) (T : Nat) (q : List Nat),
      A.Pairwise (· ≤ ·) →
      (∀ u ∈ A, u ≤ T) →
      (∀ t' ∈ ts, T ≤ t') →
      ts.Pairwise (· ≤ ·) →
      (∀ t, countWindow t A ≤ maxRequests) →
      q = A.filter (fun u => decide (T - u < nsPerSec)) →
      ∀ t, countWindow t (A ++ admittedTimes (runLimiter maxRequests q ts).1) ≤
        maxRequests := by
  intro ts
  induction ts with
  | nil =>
    intro A T q _ _ _ _ hW _ t
    simpa [runLimiter, admittedTimes] using hW t
  | cons now rest ih =>
    intro A T q hS hAT hts hP hW hq t
    have hTnow : T ≤ now := hts now (List.mem_cons_self _ _)
    rw [List.pairwise_cons] at hP
    have hqS : q.Pairwise (· ≤ ·) := hq ▸ hS.filter _
    have hdrop : dropOld now q = A.filter fun u => decide (now - u < nsPerSec) := by
      rw [dropOld_eq_filter now hqS, hq, List.filter_filter]
      apply List.filter_congr
      intro u hu
      have hu' := hAT u hu
      by_cases hnu : now - u < nsPerSec
      · have hTu : T - u < nsPerSec := by omega
        simp [hnu, hTu]
      · simp [hnu]
    set keep := A.filter (fun u => decide (now - u < nsPerSec)) with hkeep
    have hkeeplen : keep.length = A.countP fun u => decide (now - u < nsPerSec) :=
      (List.countP_eq_length_filter _ _).symm
    by_cases hlen : keep.length < maxRequests
    · have hAR : allowRequest maxRequests now q = (true, keep ++ [now]) := by
        rw [allowRequest_eq, hdrop, if_pos hlen]
      rw [runLimiter_cons, hAR]
      simp only [admittedTimes_cons_true]
      rw [← List.singleton_append, ← List.append_assoc]
      apply ih (A ++ [now]) now (keep ++ [now])
      · rw [List.pairwise_append]
        exact ⟨hS, List.pairwise_singleton _ _,
          fun a ha b hb => by
            rw [List.mem_singleton] at hb
            subst hb
            exact le_trans (hAT a ha) hTnow⟩
      · intro u hu
        rcases List.mem_append.1 hu with h' | h'
        · exact le_trans (hAT u h') hTnow
        · rw [List.mem_singleton] at h'; omega
      · exact hP.1
      · exact hP.2
      · intro t'
        rw [countWindow, List.countP_append, ← countWindow]
        by_cases hwin : t' < now ∧ now ≤ t' + nsPerSec
        · have hsub : countWindow t' A ≤ A.countP fun u => decide (now - u < nsPerSec) := by
            apply List.countP_mono_left
            intro u hu hu'
            simp only [decide_eq_true_eq] at hu' ⊢
            omega
          have h1 : countWindow t' A < maxRequests := by
            omega
          have h2 : List.countP (fun u => decide (t' < u ∧ u ≤ t' + nsPerSec)) [now] ≤ 1 := by
            simpa using List.countP_le_length (fun u => decide (t' < u ∧ u ≤ t' + nsPerSec))
              (l := [now])
          omega
        · have h2 : List.countP (fun u => decide (t' < u ∧ u ≤ t' + nsPerSec)) [now] = 0 := by
            simp [List.countP_cons, hwin]
          rw [h2]
          simpa using hW t'
      · rw [List.filter_append, hkeep]
        congr 1
        have hx : decide (now - now < nsPerSec) = true := by
          simp [nsPerSec]
        simp [List.filter_cons, hx, nsPerSec_pos]
    · have hAR : allowRequest maxRequests now q = (false, keep) := by
        rw [allowRequest_eq, hdrop, if_neg hlen]
      rw [runLimiter_cons, hAR]
      simp only [admittedTimes_cons_false]
      exact ih A now keep hS (fun u hu => le_trans (hAT u hu) hTnow) hP.1 hP.2 hW hkeep t

/-! ## Claim C3 -/

/-- **C3.** For every client (one deque) and call time `now`,
`RateLimiter::allow_request` first removes from the front of the timestamp
deque every timestamp at least one second old, stopping at the first younger
entry — on a sorted deque (the case arising in any run, since path times are
non-decreasing) this keeps exactly the entries younger than one second — and
returns true and appends `now` iff the remaining length is strictly below
`max_requests_`; consequently, over any non-decreasing trace of call times,
the number of admissions in any 1-second window `(t, t + 1s]` never exceeds
the ceiling. -/
theorem C3_allow_request (maxRequests : Nat) :
    (∀ now (q : List Nat), q.Pairwise (· ≤ ·) →
      allowRequest maxRequests now q =
        (let kept := q.filter fun u => decide (now - u < nsPerSec)
         if kept.length < maxRequests then (true, kept ++ [now]) else (false, kept))) ∧
    (∀ ts : List Nat, ts.Pairwise (· ≤ ·) →
      ∀ t, countWindow t (admittedTimes (runLimiter maxRequests [] ts).1) ≤ maxRequests) := by
  constructor
  · intro now q hq
    rw [allowRequest_eq, dropOld_eq_filter now hq]
  · intro ts hts t
    have := runLimiter_window_bound maxRequests ts [] 0 []
      (List.Pairwise.nil) (by simp) (fun _ _ => Nat.zero_le _) hts
      (by intro t'; simp [countWindow]) rfl t
    simpa using this

theorem C3_allow_request_witness :
    (allowRequest 2 5 [] =
      (let kept := List.filter (fun u => decide ((5 : Nat) - u < nsPerSec)) ([] : List Nat)
       if kept.length < 2 then (true, kept ++ [5]) else (false, kept))) ∧
    countWindow 0 (admittedTimes (runLimiter 2 [] [0, 0, 0]).1) ≤ 2 :=
  ⟨(C3_allow_request 2).1 5 [] (by decide),
   (C3_allow_request 2).2 [0, 0, 0] (by decide) 0⟩

/-! ## Claim C9 -/

/-- **C9.** For every client's telemetry ring, both the producer step of
`allow_request` (write the event at `write_index mod 1000`, then store
`write_index + 1`) and the reader step of `flush_metrics` (read
`[read_index, write_index)`, then store `write_index` into `read_index`)
leave `write_index` and `read_index` non-decreasing and preserve
`read_index ≤ write_index`. -/
theorem C9_ring_indices (m : ClientMetrics) (ev : MetricEvent)
    (h : m.read_index ≤ m.write_index) :
    (m.write_index ≤ (producerStep ev m).write_index ∧
     m.read_index ≤ (producerStep ev m).read_index ∧
     (producerStep ev m).read_index ≤ (producerStep ev m).write_index) ∧
    (m.write_index ≤ (readerStep m).1.write_index ∧
     m.read_index ≤ (readerStep m).1.read_index ∧
     (readerStep m).1.read_index ≤ (readerStep m).1.write_index) := by
  unfold producerStep readerStep
  by_cases h0 : 0 < ((List.range' m.read_index (m.write_index - m.read_index)).map
      fun i => m.ring_buffer.getD (i % BUFFER_SIZE) ⟨0, false⟩).length
  · simp only [h0, if_true]
    refine ⟨⟨?_, ?_, ?_⟩, ?_, ?_, ?_⟩ <;> (try simp) <;> omega
  · simp only [h0, if_false]
    refine ⟨⟨?_, ?_, ?_⟩, ?_, ?_, ?_⟩ <;> (try simp) <;> omega

theorem C9_ring_indices_witness :
    (ClientMetrics.init.write_index ≤ (producerStep ⟨7, true⟩ ClientMetrics.init).write_index ∧
     ClientMetrics.init.read_index ≤ (producerStep ⟨7, true⟩ ClientMetrics.init).read_index ∧
     (producerStep ⟨7, true⟩ ClientMetrics.init).read_index ≤
       (producerStep ⟨7, true⟩ ClientMetrics.init).write_index) ∧
    (ClientMetrics.init.write_index ≤ (readerStep ClientMetrics.init).1.write_index ∧
     ClientMetrics.init.read_index ≤ (readerStep ClientMetrics.init).1.read_index ∧
     (readerStep ClientMetrics.init).1.read_index ≤
       (readerStep ClientMetrics.init).1.write_index) :=
  C9_ring_indices ClientMetrics.init ⟨7, true⟩ (Nat.le_refl 0)

/-! ## Supporting lemmas for validation and the handler -/

set_option maxRecDepth 20000 in
/-- Non-finite parsed values are reachable (the non-finite trigger of C5 is
not vacuous): the scanner consumes the `-` of `-inf`/`-nan`, after which
`strtod` parses the literal; an overflowing exponent parses to +infinity. -/
theorem parse_number_nonfinite_reachable :
    (parse_number ("-inf".data)).1 = .ninf ∧
    (parse_number ("-nan".data)).1 = .nan ∧
    (parse_number ("1e999".data)).1 = .inf := by
  refine ⟨rfl, rfl, by decide⟩

set_option maxRecDepth 20000 in
/-- The 400-path for a non-finite parsed value, evaluated end to end: a body
whose value is `1e999` (parsed by `strtod` to +infinity with `ERANGE`) is
rejected and `validation_errors` is incremented. -/
theorem overflow_value_rejected :
    (handle_metrics_post 10 0 ServiceState.init
        ⟨[], "\x7b\"metrics\":[\x7b\"name\":\"x\",\"value\":1e999\x7d]\x7d"⟩).1.status_code
      = 400 ∧
    (handle_metrics_post 10 0 ServiceState.init
        ⟨[], "\x7b\"metrics\":[\x7b\"name\":\"x\",\"value\":1e999\x7d]\x7d"⟩).2.validation_errors
      = 1 := by
  decide

/-! ## Supporting lemmas for the parser name invariant -/

/-- The batch a step result carries. -/
def StepResult.batchOf : StepResult → MetricBatch
  | .finished b => b
  | .next _ _ acc => acc.batch

/-- One parser iteration either leaves the batch alone or appends the metric
under construction, and then only under the non-empty-name guard. -/
theorem parseStep_batch (st : ParseState) (cs : List Char) (acc : ParserAcc) :
    (parseStep st cs acc).batchOf = acc.batch ∨
    (acc.metric_name.isEmpty = false ∧
      (parseStep st cs acc).batchOf = acc.batch.add_metric
        (Metric.mk acc.metric_name acc.metric_value
          (typeOfString acc.metric_type) acc.metric_tags)) := by
  unfold parseStep
  repeat' split
  all_goals try (left; rfl)
  all_goals
    right; refine ⟨?_, rfl⟩; rename_i hguard; exact Bool.of_not_eq_true hguard

theorem parseStep_names (st : ParseState) (cs : List Char) (acc : ParserAcc)
    (hacc : ∀ m ∈ acc.batch.metrics, m.name ≠ "") :
    ∀ m ∈ ((parseStep st cs acc).batchOf).metrics, m.name ≠ "" := by
  rcases parseStep_batch st cs acc with h | ⟨hne, h⟩
  · rw [h]; exact hacc
  · rw [h]
    intro m hm
    simp only [MetricBatch.add_metric, List.mem_append, List.mem_singleton] at hm
    rcases hm with hm | hm
    · exact hacc m hm
    · subst hm
      intro hname
      have h0 : acc.metric_name = "" := hname
      rw [h0] at hne
      exact absurd hne (by decide)

theorem parseLoop_names :
    ∀ (fuel : Nat) (st : ParseState) (cs : List Char) (acc : ParserAcc),
      (∀ m ∈ acc.batch.metrics, m.name ≠ "") →
      ∀ m ∈ (parseLoop fuel st cs acc).metrics, m.name ≠ "" := by
  intro fuel
  induction fuel with
  | zero => intro st cs acc hacc; exact hacc
  | succ fuel ih =>
    intro st cs acc hacc
    have hstep := parseStep_names st cs acc hacc
    unfold parseLoop
    cases h : parseStep st cs acc with
    | finished b =>
      rw [h] at hstep
      exact hstep
    | next st' cs' acc' =>
      rw [h] at hstep
      exact ih st' cs' acc' hstep

/-! ## Claim C4 -/

/-- **C4.** For every POST /metrics request, the client id is the
`Authorization` header value (falling back to `"default"`) and the rate
limiter is consulted before any parsing (last conjunct: the response and the
new state do not depend on the body at all); when `allow_request` returns
false the handler returns status 429 with body
`{"error":"Rate limit exceeded"}` (the spec renders the same JSON object
with a space after the colon), increments `rate_limited_requests` by one,
and leaves `metrics_received`, `batches_processed`, `validation_errors` and
the writer's handoff queue unchanged. -/
theorem C4_rate_limited (maxRequests now : Nat) (st : ServiceState) (request : HttpRequest)
    (hdeny : (allowRequest maxRequests now (lookupQueue st.client_requests
        ((request.headers.lookup "Authorization").getD "default"))).1 = false) :
    (handle_metrics_post maxRequests now st request).1.status_code = 429 ∧
    (handle_metrics_post maxRequests now st request).1.body =
      "\x7b\"error\":\"Rate limit exceeded\"\x7d" ∧
    (handle_metrics_post maxRequests now st request).2.rate_limited = st.rate_limited + 1 ∧
    (handle_metrics_post maxRequests now st request).2.metrics_received = st.metrics_received ∧
    (handle_metrics_post maxRequests now st request).2.batches_processed =
      st.batches_processed ∧
    (handle_metrics_post maxRequests now st request).2.validation_errors =
      st.validation_errors ∧
    (handle_metrics_post maxRequests now st request).2.write_queue = st.write_queue ∧
    ∀ body' : String,
      handle_metrics_post maxRequests now st { request with body := body' } =
        handle_metrics_post maxRequests now st request := by
  unfold handle_metrics_post
  simp [hdeny, create_error_response]

theorem C4_rate_limited_witness :
    (handle_metrics_post 0 0 ServiceState.init ⟨[("Authorization", "c1")], "b"⟩).1.status_code
        = 429 ∧
    (handle_metrics_post 0 0 ServiceState.init ⟨[("Authorization", "c1")], "b"⟩).1.body =
      "\x7b\"error\":\"Rate limit exceeded\"\x7d" ∧
    (handle_metrics_post 0 0 ServiceState.init
        ⟨[("Authorization", "c1")], "b"⟩).2.rate_limited = ServiceState.init.rate_limited + 1 ∧
    (handle_metrics_post 0 0 ServiceState.init
        ⟨[("Authorization", "c1")], "b"⟩).2.metrics_received =
      ServiceState.init.metrics_received ∧
    (handle_metrics_post 0 0 ServiceState.init
        ⟨[("Authorization", "c1")], "b"⟩).2.batches_processed =
      ServiceState.init.batches_processed ∧
    (handle_metrics_post 0 0 ServiceState.init
        ⟨[("Authorization", "c1")], "b"⟩).2.validation_errors =
      ServiceState.init.validation_errors ∧
    (handle_metrics_post 0 0 ServiceState.init
        ⟨[("Authorization", "c1")], "b"⟩).2.write_queue = ServiceState.init.write_queue ∧
    ∀ body' : String,
      handle_metrics_post 0 0 ServiceState.init
          { HttpRequest.mk [("Authorization", "c1")] "b" with body := body' } =
        handle_metrics_post 0 0 ServiceState.init ⟨[("Authorization", "c1")], "b"⟩ :=
  C4_rate_limited 0 0 ServiceState.init ⟨[("Authorization", "c1")], "b"⟩ (by decide)

/-! ## Claim C5 -/

/-- **C6 (the code, evaluated at the claim's input).**  The claim requires a
POST of `{"metrics":[{"name":"x","value":NaN}]}` (or with `value=inf`) to
receive 400 and bump `validation_errors`.  In the code, `parse_number`'s
scanner consumes no character of `NaN`/`inf`, so the value parses as 0.0,
`validate_metric`'s non-finite check (which shows the intent to reject such
values) never sees a non-finite value, and the batch is accepted: the
handler produces the success response (status 200) and `validation_errors`
stays 0. -/
theorem C6_nonfinite_value_accepted :
    ((handle_metrics_post 10 0 ServiceState.init
        ⟨[], "\x7b\"metrics\":[\x7b\"name\":\"x\",\"value\":NaN\x7d]\x7d"⟩).1.status_code = 200 ∧
     (handle_metrics_post 10 0 ServiceState.init
        ⟨[], "\x7b\"metrics\":[\x7b\"name\":\"x\",\"value\":NaN\x7d]\x7d"⟩).1.body =
       "\x7b\"success\":true,\"metrics_processed\":1\x7d" ∧
     (handle_metrics_post 10 0 ServiceState.init
        ⟨[], "\x7b\"metrics\":[\x7b\"name\":\"x\",\"value\":NaN\x7d]\x7d"⟩).2.validation_errors = 0) ∧
    ((handle_metrics_post 10 0 ServiceState.init
        ⟨[], "\x7b\"metrics\":[\x7b\"name\":\"x\",\"value\":inf\x7d]\x7d"⟩).1.status_code = 200 ∧
     (handle_metrics_post 10 0 ServiceState.init
        ⟨[], "\x7b\"metrics\":[\x7b\"name\":\"x\",\"value\":inf\x7d]\x7d"⟩).2.validation_errors = 0) := by
  decide

/-! ## Claim C10 -/

/-- **C10.** The parser adds a metric object to the batch only when a
non-empty `name` string was parsed for it (first conjunct: every metric of
every parse result has a non-empty name); a POST whose metric objects all
lack a name therefore parses to the empty batch and draws the 400
`Batch cannot be empty` response rather than a name-validation error (second
conjunct, at the concrete body `{"metrics":[{"value":1}]}`); and the
`metrics_processed` count of a 200 response is the size of the parsed batch,
hence counts only the named metrics (third conjunct). -/
theorem C10_nameless_metrics_skipped :
    (∀ (body : String) (m : Metric),
        m ∈ (parse_json_metrics_optimized body).metrics → m.name ≠ "") ∧
    ((handle_metrics_post 10 0 ServiceState.init
        ⟨[], "\x7b\"metrics\":[\x7b\"value\":1\x7d]\x7d"⟩).1.status_code = 400 ∧
     (handle_metrics_post 10 0 ServiceState.init
        ⟨[], "\x7b\"metrics\":[\x7b\"value\":1\x7d]\x7d"⟩).1.body =
       create_error_response "Batch cannot be empty" ∧
     (handle_metrics_post 10 0 ServiceState.init
        ⟨[], "\x7b\"metrics\":[\x7b\"value\":1\x7d]\x7d"⟩).2.validation_errors = 1) ∧
    (∀ (maxRequests now : Nat) (st : ServiceState) (request : HttpRequest),
        (allowRequest maxRequests now (lookupQueue st.client_requests
          ((request.headers.lookup "Authorization").getD "default"))).1 = true →
        (validate_batch (parse_json_metrics_optimized request.body)).valid = true →
        (handle_metrics_post maxRequests now st request).1.body =
          create_success_response (parse_json_metrics_optimized request.body).size) := by
  refine ⟨?_, by decide, ?_⟩
  · intro body m hm
    refine parseLoop_names _ _ _ _ ?_ m hm
    intro m' hm'
    simp at hm'
  · intro maxRequests now st request hallow hvalid
    unfold handle_metrics_post
    simp [hallow, hvalid]

theorem C10_nameless_metrics_skipped_witness :
    (Metric.mk "cpu" (.finite 0) .GAUGE []).name ≠ "" ∧
    (handle_metrics_post 1 0 ServiceState.init
        ⟨[], "\x7b\"metrics\":[\x7b\"name\":\"cpu\"\x7d]\x7d"⟩).1.body =
      create_success_response
        (parse_json_metrics_optimized "\x7b\"metrics\":[\x7b\"name\":\"cpu\"\x7d]\x7d").size :=
  ⟨C10_nameless_metrics_skipped.1 "\x7b\"metrics\":[\x7b\"name\":\"cpu\"\x7d]\x7d"
      (Metric.mk "cpu" (.finite 0) .GAUGE [])
      (by
        have hp : parse_json_metrics_optimized "\x7b\"metrics\":[\x7b\"name\":\"cpu\"\x7d]\x7d" =
            ⟨[Metric.mk "cpu" (.finite 0) .GAUGE []]⟩ := rfl
        rw [hp]
        exact List.mem_singleton_self _),
   C10_nameless_metrics_skipped.2.2 1 0 ServiceState.init
      ⟨[], "\x7b\"metrics\":[\x7b\"name\":\"cpu\"\x7d]\x7d"⟩ (by decide) (by decide)⟩

/-! ## Claim C7 -/

/-- **C7.** For a partition holding exactly messages `1..M` and a committed
offset `c` loaded from the consumer-offset file (absent file meaning 0), a
consumer run delivers exactly the messages with offset greater than `c`, in
strict offset order with nothing skipped or repeated (`range'`), each
delivery at `read_offsets[p] + 1` of the state built so far (the recursion
advances `read_offsets[p]` to the delivered offset only after the read and
delivery), the commit written after each delivery equals the delivered
offset (`commits` pairs one-to-one with `deliveries`), and the final
`read_offsets[p]` is `M`.  Running it again from a committed offset replays
exactly the uncommitted suffix — the at-least-once restart semantics. -/
theorem C7_consumer_order (M : Nat) (m : Nat → String) (stored : Option Nat) (fuel : Nat)
    (hc : loadCommitted stored ≤ M) (hfuel : M - loadCommitted stored ≤ fuel) :
    consume_partition fuel (contiguousDir M m) (loadCommitted stored) =
      ⟨(List.range' (loadCommitted stored + 1) (M - loadCommitted stored)).map
          (fun o => (o, m o)),
       List.range' (loadCommitted stored + 1) (M - loadCommitted stored),
       M⟩ := by
  have main : ∀ (fuel c : Nat), c ≤ M → M - c ≤ fuel →
      consume_partition fuel (contiguousDir M m) c =
        ⟨(List.range' (c + 1) (M - c)).map (fun o => (o, m o)),
         List.range' (c + 1) (M - c), M⟩ := by
    intro fuel
    induction fuel with
    | zero =>
      intro c hcM hf
      have hMc : M = c := by omega
      subst hMc
      simp [consume_partition, Nat.sub_self]
    | succ fuel ih =>
      intro c hcM hf
      by_cases hlt : c < M
      · have hdir : contiguousDir M m (c + 1) = some (m (c + 1)) := by
          unfold contiguousDir
          have : 1 ≤ c + 1 ∧ c + 1 ≤ M := by omega
          simp [this]
        unfold consume_partition read_next
        rw [hdir]
        simp only
        rw [ih (c + 1) (by omega) (by omega)]
        have hr : M - c = (M - (c + 1)) + 1 := by omega
        rw [hr]
        simp [List.range']
      · have hMc : M = c := by omega
        subst hMc
        have hdir : contiguousDir M m (M + 1) = none := by
          unfold contiguousDir
          simp
        unfold consume_partition read_next
        rw [hdir]
        simp [Nat.sub_self]
  exact main fuel (loadCommitted stored) hc hfuel

theorem C7_consumer_order_witness :
    consume_partition 5 (contiguousDir 3 (fun _ => "x")) (loadCommitted (some 1)) =
      ⟨(List.range' (loadCommitted (some 1) + 1) (3 - loadCommitted (some 1))).map
          (fun o => (o, (fun _ => "x") o)),
       List.range' (loadCommitted (some 1) + 1) (3 - loadCommitted (some 1)),
       3⟩ :=
  C7_consumer_order 3 (fun _ => "x") (some 1) 5 (by decide) (by decide)

/-! ## Claim C8 -/

/-- **C8 (counterexample).** The claim asserts the keep-alive flag is set iff
`Connection: keep-alive` appears in the headers of the framed request.  The
code searches the whole read buffer: a request whose *body* is the string
`Connection: keep-alive` (headers without that token) is framed with the
flag set. -/
theorem C8_keepalive_counterexample :
    (let buf := ("POST / HTTP/1.1\r\nContent-Length: 22\r\n\r\nConnection: keep-alive").data
     frameRequest buf = .framed buf true [] ∧
     findSubstr (buf.take 39) ("Connection: keep-alive".data) = none) := by
  decide

/-- **C8 (amended).** For every read buffer: the request is framed as
complete exactly when the buffer contains `\r\n\r\n` at `header_end` and,
with `N` the parsed `Content-Length` (0 when the header is absent or after
the terminator), at least `header_end + 4 + N` bytes are buffered; the
framed request is exactly the first `header_end + 4 + N` bytes, removed from
the buffer with the extra bytes left in place for pipelined requests; and
the keep-alive flag is set iff `Connection: keep-alive` appears anywhere in
the buffered data (headers, body or pipelined bytes) — not only in the
headers of that request, which is the single point where the original claim
fails. -/
theorem C8_framing (buf : List Char) :
    (frameRequest buf = .needMore ↔
      findSubstr buf ("\r\n\r\n".data) = none ∨
      ∃ he N, findSubstr buf ("\r\n\r\n".data) = some he ∧
        contentLengthOf buf he = some N ∧ buf.length < he + 4 + N) ∧
    (∀ req ka rest, frameRequest buf = .framed req ka rest →
      ∃ he N, findSubstr buf ("\r\n\r\n".data) = some he ∧
        contentLengthOf buf he = some N ∧
        he + 4 + N ≤ buf.length ∧
        req.length = he + 4 + N ∧
        req ++ rest = buf ∧
        ka = (findSubstr buf ("Connection: keep-alive".data)).isSome) := by
  constructor
  · cases hfind : findSubstr buf ("\r\n\r\n".data) with
    | none =>
      have hfr : frameRequest buf = .needMore := by
        unfold frameRequest; simp only [hfind]
      constructor
      · intro _; exact .inl rfl
      · intro _; exact hfr
    | some he =>
      cases hcl : contentLengthOf buf he with
      | none =>
        have hfr : frameRequest buf = .closeConn := by
          unfold frameRequest; simp only [hfind, hcl]
        constructor
        · intro h; rw [hfr] at h; cases h
        · rintro (h | ⟨he', N', h1, h2, h3⟩)
          · cases h
          · injection h1 with h1
            subst h1
            rw [hcl] at h2
            cases h2
      | some N =>
        by_cases hlen : buf.length < he + 4 + N
        · have hfr : frameRequest buf = .needMore := by
            unfold frameRequest
            simp only [hfind, hcl]
            rw [if_pos hlen]
          constructor
          · intro _; exact .inr ⟨he, N, rfl, hcl, hlen⟩
          · intro _; exact hfr
        · have hfr : frameRequest buf =
              .framed (buf.take (he + 4 + N))
                ((findSubstr buf ("Connection: keep-alive".data)).isSome)
                (buf.drop (he + 4 + N)) := by
            unfold frameRequest
            simp only [hfind, hcl]
            rw [if_neg hlen]
          constructor
          · intro h; rw [hfr] at h; cases h
          · rintro (h | ⟨he', N', h1, h2, h3⟩)
            · cases h
            · injection h1 with h1
              subst h1
              rw [hcl] at h2
              injection h2 with h2
              subst h2
              exact absurd h3 hlen
  · intro req ka rest hframe
    unfold frameRequest at hframe
    cases hfind : findSubstr buf ("\r\n\r\n".data) with
    | none => simp only [hfind] at hframe; cases hframe
    | some he =>
      simp only [hfind] at hframe
      cases hcl : contentLengthOf buf he with
      | none => simp only [hcl] at hframe; cases hframe
      | some N =>
        simp only [hcl] at hframe
        by_cases hlen : buf.length < he + 4 + N
        · rw [if_pos hlen] at hframe; cases hframe
        · rw [if_neg hlen] at hframe
          injection hframe with h1 h2 h3
          refine ⟨he, N, rfl, hcl, by omega, ?_, ?_, h2.symm⟩
          · rw [← h1]
            simp
            omega
          · rw [← h1, ← h3]
            exact List.take_append_drop _ buf

theorem C8_framing_witness :
    ∃ he N, findSubstr ("GET /\r\n\r\nXY".data) ("\r\n\r\n".data) = some he ∧
      contentLengthOf ("GET /\r\n\r\nXY".data) he = some N ∧
      he + 4 + N ≤ ("GET /\r\n\r\nXY".data).length ∧
      ("GET /\r\n\r\n".data).length = he + 4 + N ∧
      "GET /\r\n\r\n".data ++ "XY".data = "GET /\r\n\r\nXY".data ∧
      false = (findSubstr ("GET /\r\n\r\nXY".data) ("Connection: keep-alive".data)).isSome :=
  (C8_framing ("GET /\r\n\r\nXY".data)).2 ("GET /\r\n\r\n".data) false ("XY".data) (by decide)

end SystemsCraft
